import Mathlib

/-!
# Client-side helpers of the blockchain web application

A shallow embedding of `blockchain/static/blockchain/js/script.js`:

* `formatNumber` (regular-expression thousands separators),
* `truncateText`,
* `showMiningProgress` with its interval callback,
* `updateBalance` with its timeout callback,

followed by the properties proved about them.
-/

namespace Blockchain

/-! ## Strings and the regular expression of `formatNumber` -/

/-- The class `\d` of the regular expression: the ASCII digits. -/
def isDigit (c : Char) : Bool := decide ('0' ≤ c) && decide (c ≤ '9')

/-- The class `\w` of the regular expression: `[A-Za-z0-9_]`. -/
def isWordChar (c : Char) : Bool :=
  (decide ('a' ≤ c) && decide (c ≤ 'z')) || (decide ('A' ≤ c) && decide (c ≤ 'Z'))
    || isDigit c || c == '_'

/-- Whether the character next to a position (none at either end of the string)
is a word character. -/
def isWordAt : Option Char → Bool
  | none => false
  | some c => isWordChar c

/-- The assertion `\B`: the position is not a word boundary, that is the characters
on its two sides are both word characters or both not. -/
def nonWordBoundary (prev next : Option Char) : Bool :=
  isWordAt prev == isWordAt next

/-- The assertion `(?!\d)`: the text at the position does not start with a digit. -/
def notFollowedByDigit : List Char → Bool
  | [] => true
  | c :: _ => !isDigit c

/-- The pattern `(\d{3})+(?!\d)` matched at the start of the text: three digits, and
then either the negative lookahead succeeds or a further repetition matches. -/
def matchGroups : List Char → Bool
  | a :: b :: c :: rest =>
      isDigit a && isDigit b && isDigit c && (notFollowedByDigit rest || matchGroups rest)
  | _ => false

/-- Whether `/\B(?=(\d{3})+(?!\d))/` matches (the empty string) at a position, given
the character before the position and the text from the position on. -/
def matchesAt (prev : Option Char) (rest : List Char) : Bool :=
  nonWordBoundary prev rest.head? && matchGroups rest

/-- The call `.replace(/\B(?=(\d{3})+(?!\d))/g, ",")` scanning from a position on: a
comma is put at every position where the pattern matches, the characters are kept. -/
def replaceFrom (prev : Option Char) : List Char → List Char
  | [] => if matchesAt prev [] then [','] else []
  | c :: rest =>
      (if matchesAt prev (c :: rest) then [','] else []) ++ c :: replaceFrom (some c) rest

/-- The body of `formatNumber` on the string `number.toString()`. -/
def formatNumberStr (s : List Char) : List Char := replaceFrom none s

/-- The function `formatNumber` on an integer whose `toString()` is its plain decimal
representation (a minus sign for negative numbers, then the digits). -/
def formatNumber (n : Int) : List Char := formatNumberStr (toString n).toList

/-! ### The grouping the description of `formatNumber` asks for -/

/-- Specification: a comma is inserted between two digits exactly where the number of
digits to the right is a positive multiple of three. -/
def insertCommas : List Char → List Char
  | [] => []
  | c :: rest =>
      c :: (if rest ≠ [] ∧ rest.length % 3 = 0 then ',' :: insertCommas rest
            else insertCommas rest)

/-- Specification of `formatNumber` on integers: the sign is kept, the digits are
grouped by `insertCommas`. -/
def groupedDecimal (n : Int) : List Char :=
  match n with
  | Int.ofNat m => insertCommas (Nat.repr m).toList
  | Int.negSucc m => '-' :: insertCommas (Nat.repr (m + 1)).toList

/-- The digits of the decimal representation of an integer, without the sign. -/
def decimalDigits (n : Int) : List Char := (Nat.repr n.natAbs).toList

/-- The sign printed by `toString`: a minus for negative integers, nothing otherwise. -/
def signChars (n : Int) : List Char := if n < 0 then ['-'] else []

/-- Specification of `formatNumber` on a number printed with a fractional part: the
digits before the decimal point are grouped by `insertCommas`, the decimal point and
what follows it are kept as they are. -/
def groupIntegerPart (s : List Char) : List Char :=
  match s with
  | '-' :: rest => '-' :: (insertCommas (rest.takeWhile isDigit) ++ rest.dropWhile isDigit)
  | _ => insertCommas (s.takeWhile isDigit) ++ s.dropWhile isDigit

/-! ## `truncateText` -/

/-- A JavaScript string as the sequence of its UTF-16 code units. -/
abbrev JSString := List Nat

/-- The string `'...'`. -/
def ellipsis : JSString := [46, 46, 46]

/-- The function `truncateText(text, maxLength = 20)`; an omitted `maxLength` is
`none`.  `substring(0, maxLength)` keeps the first `maxLength` code units. -/
def truncateText (text : JSString) (maxLength : Option Nat) : JSString :=
  let maxLength := maxLength.getD 20
  if text.length ≤ maxLength then text
  else text.take maxLength ++ ellipsis

/-! ## `showMiningProgress` and its interval timer -/

/-- The element `#mineButton`: the two properties the function writes. -/
structure MineButton where
  disabled : Bool
  innerHTML : String
  deriving DecidableEq, Repr

/-- The element `#miningProgress`: its `style.display`, and the `style.width` of its
first `.progress-bar` descendant (`none` when it has no such descendant). -/
structure MiningProgress where
  display : String
  bar : Option String
  deriving DecidableEq, Repr

/-- An interval created by `setInterval` in `showMiningProgress`: the closure variable
`width`, whether the captured `progressBar` is an element, and whether `clearInterval`
has been called on it.  `calls` counts the invocations of the callback; it is
bookkeeping of the model and is never read. -/
structure ProgressTimer where
  width : Nat
  hasBar : Bool
  cleared : Bool
  calls : Nat
  deriving DecidableEq, Repr

/-- The part of the page `showMiningProgress` reads and writes: whether `#miningForm`
exists, the button and the progress container when they exist, and the intervals
created so far, oldest first. -/
structure MiningPage where
  miningForm : Bool
  mineButton : Option MineButton
  miningProgress : Option MiningProgress
  timers : List ProgressTimer
  deriving DecidableEq, Repr

/-- The expression `width + '%'`. -/
def percent (width : Nat) : String := toString width ++ "%"

/-- The label written into the button. -/
def miningLabel : String := "<span class=\"loading-spinner me-2\"></span>Mining..."

/-- The function `showMiningProgress`. -/
def showMiningProgress (p : MiningPage) : MiningPage :=
  match p.miningForm, p.mineButton, p.miningProgress with
  | true, some button, some progress =>
      { p with
        mineButton := some { button with disabled := true, innerHTML := miningLabel }
        miningProgress := some { progress with display := "block" }
        timers := p.timers ++
          [{ width := 0, hasBar := progress.bar.isSome, cleared := false, calls := 0 }] }
  | _, _, _ => p

/-- One invocation of the interval callback, on the timer and the width of the
progress bar (`none` when the page has no bar). -/
def callback (t : ProgressTimer) (bar : Option String) : ProgressTimer × Option String :=
  if t.width ≥ 100 then
    ({ t with cleared := true, calls := t.calls + 1 }, bar)
  else
    let width := t.width + 2
    ({ t with width := width, calls := t.calls + 1 },
      if t.hasBar then bar.map (fun _ => percent width) else bar)

/-- One period of 100 ms: every interval that has not been cleared has its callback
invoked once, older intervals first; a cleared interval is not invoked. -/
def fireAll : List ProgressTimer → Option String → List ProgressTimer × Option String
  | [], bar => ([], bar)
  | t :: ts, bar =>
      if t.cleared then
        let r := fireAll ts bar
        (t :: r.1, r.2)
      else
        let c := callback t bar
        let r := fireAll ts c.2
        (c.1 :: r.1, r.2)

/-- The width shown by the progress bar, if the page has one. -/
def barWidth (p : MiningPage) : Option String := p.miningProgress.bind (fun g => g.bar)

/-- One timer tick on the page. -/
def tick (p : MiningPage) : MiningPage :=
  let r := fireAll p.timers (barWidth p)
  { p with
    timers := r.1
    miningProgress := p.miningProgress.map (fun g => { g with bar := r.2 }) }

/-- The page after `k` timer ticks. -/
def ticks : Nat → MiningPage → MiningPage
  | 0, p => p
  | k + 1, p => tick (ticks k p)

/-- The interval created by the latest call of `showMiningProgress`. -/
def newestTimer (p : MiningPage) : Option ProgressTimer := p.timers.getLast?

/-- A page with the three elements and a progress bar, and no interval yet. -/
def freshMiningPage : MiningPage :=
  { miningForm := true
    mineButton := some { disabled := false, innerHTML := "Mine Block" }
    miningProgress := some { display := "none", bar := some "0%" }
    timers := [] }

/-- The state of an interval `k` ticks after its creation, as the animation is
described: the counter has grown by 2 per tick up to 100. -/
def timerAfter (hasBar : Bool) (k : Nat) : ProgressTimer :=
  { width := min (2 * k) 100, hasBar := hasBar, cleared := decide (51 ≤ k), calls := min k 51 }

/-! ## Numbers, `parseFloat` and `toFixed` -/

/-- A JavaScript number: not-a-number, an infinity, or a finite value
`mantissa * 2 ^ exponent`; every finite double has this form (negative zero is not told
apart from zero). -/
inductive JSNumber where
  | nan
  | posInf
  | negInf
  | finite (mantissa : Int) (exponent : Int)
  deriving DecidableEq

/-- A value produced by parsing JSON, as it may stand in the `balance` property of a
response body.  An object is given by the names of its own properties: their values
are never functions and play no part in the conversion of the object to a string. -/
inductive JSValue where
  | null
  | bool (b : Bool)
  | number (x : JSNumber)
  | string (s : String)
  | array (items : List JSValue)
  | object (keys : List String)

/-- The language functions the model leaves open: `parseFloat` on a string, the
`toString` of a finite number of magnitude at least `10 ^ 21` (exponent notation),
given the magnitude as `mantissa * 2 ^ exponent`, and the `toString` of a finite
number `mantissa * 2 ^ exponent` in general. -/
structure Platform where
  parseFloatString : String → JSNumber
  largeToString : Nat → Int → List Char
  finiteToString : Int → Int → String

/-- The conversion of a number to a string. -/
def numberToString (P : Platform) : JSNumber → String
  | .nan => "NaN"
  | .posInf => "Infinity"
  | .negInf => "-Infinity"
  | .finite mantissa exponent => P.finiteToString mantissa exponent

mutual
/-- The conversion `ToString` of a parsed value, or the error it throws.  An array is
converted by `join`.  An object without an own property `toString` is converted by
`Object.prototype.toString`; with an own property `toString`, which is not a function,
the conversion finds no method that returns a primitive (`valueOf` is not a function
either, or returns the object) and throws a `TypeError`. -/
def toStringValue (P : Platform) : JSValue → Except String String
  | .null => .ok "null"
  | .bool true => .ok "true"
  | .bool false => .ok "false"
  | .number x => .ok (numberToString P x)
  | .string s => .ok s
  | .array items => joinItems P items
  | .object keys =>
      if "toString" ∈ keys then .error "TypeError: Cannot convert object to primitive value"
      else .ok "[object Object]"
/-- The method `Array.prototype.join` with the separator `","`: a `null` item gives the
empty string, any other item its `ToString`. -/
def joinItems (P : Platform) : List JSValue → Except String String
  | [] => .ok ""
  | x :: rest =>
      let item : Except String String :=
        match x with
        | .null => .ok ""
        | y => toStringValue P y
      match item with
      | .error e => .error e
      | .ok a =>
          if rest.isEmpty then .ok a
          else
            match joinItems P rest with
            | .error e => .error e
            | .ok b => .ok (a ++ "," ++ b)
end

/-- The language function `parseFloat` on a `balance` value, or the error it throws:
the value is converted to a string and the longest numeric prefix of it is read.  A
number comes back as itself; `"null"`, `"true"`, `"false"` and `"[object Object]"` have
no numeric prefix; the conversion of an array or an object may throw. -/
def parseFloat (P : Platform) : JSValue → Except String JSNumber
  | .null => .ok .nan
  | .bool _ => .ok .nan
  | .number x => .ok x
  | .string s => .ok (P.parseFloatString s)
  | .array items =>
      match joinItems P items with
      | .error e => .error e
      | .ok joined => .ok (P.parseFloatString joined)
  | .object keys =>
      match toStringValue P (.object keys) with
      | .error e => .error e
      | .ok _ => .ok .nan

/-- The numerator of the magnitude `mantissa * 2 ^ exponent` written as a fraction with
the denominator `magDen`. -/
def magNum (mantissa : Nat) (exponent : Int) : Nat := mantissa * 2 ^ exponent.toNat

/-- The denominator of the magnitude `mantissa * 2 ^ exponent`: 1 when the exponent is
not negative, `2 ^ (-exponent)` otherwise. -/
def magDen (exponent : Int) : Nat := 2 ^ (-exponent).toNat

/-- The integer `n` for which `n / 10 ^ f - x` is closest to zero, the larger one when
there are two, for the magnitude `x = mantissa * 2 ^ exponent`: the integer part of
`x * 10 ^ f + 1 / 2`. -/
def nearestScaled (mantissa : Nat) (exponent : Int) (f : Nat) : Nat :=
  (2 * magNum mantissa exponent * 10 ^ f + magDen exponent) / (2 * magDen exponent)

/-- The digits `toFixed` prints for the scaled integer `n` with `f` fraction digits: the
decimal digits of `n`, padded with zeros on the left to `f + 1` digits, with a point
before the last `f` of them. -/
def fixedDigits (n f : Nat) : List Char :=
  let m := (Nat.repr n).toList
  if f ≠ 0 then
    let k := m.length
    let m := if k ≤ f then List.replicate (f + 1 - k) '0' ++ m else m
    let k := if k ≤ f then f + 1 else k
    m.take (k - f) ++ '.' :: m.drop (k - f)
  else m

/-- The method `Number.prototype.toFixed` with `f` fraction digits: a value that is
not finite is printed by name; otherwise the sign is followed, for a magnitude of at
least `10 ^ 21`, by its `toString`, and else by the digits of the nearest multiple of
`10 ^ (-f)`. -/
def toFixed (P : Platform) (x : JSNumber) (f : Nat) : String :=
  match x with
  | .nan => "NaN"
  | .posInf => "Infinity"
  | .negInf => "-Infinity"
  | .finite mantissa exponent =>
      let s : List Char := if mantissa < 0 then ['-'] else []
      let a := mantissa.natAbs
      if 10 ^ 21 * magDen exponent ≤ magNum a exponent then
        String.mk (s ++ P.largeToString a exponent)
      else String.mk (s ++ fixedDigits (nearestScaled a exponent f) f)

/-- A text is a decimal numeral with exactly two digits after the decimal point: an
optional minus sign, at least one digit, a point, two digits. -/
def TwoDecimals (text : String) : Prop :=
  ∃ sign whole frac : List Char, text.toList = sign ++ whole ++ '.' :: frac ∧
    (sign = [] ∨ sign = ['-']) ∧ whole ≠ [] ∧ (∀ c ∈ whole, isDigit c = true) ∧
    frac.length = 2 ∧ (∀ c ∈ frac, isDigit c = true)

/-- A platform used for evaluating examples; its functions are not consulted there. -/
def samplePlatform : Platform :=
  { parseFloatString := fun _ => .nan
    largeToString := fun _ _ => []
    finiteToString := fun _ _ => "" }

/-! ## `updateBalance`, the page it writes and the timeouts it schedules -/

/-- An element looked up as `balance-` followed by an address: its text content and
its class list. -/
structure BalanceElement where
  textContent : String
  classList : List String
  deriving DecidableEq, Repr

/-- A pending `setTimeout` of `updateBalance`: the time at which it is due and the id
of the element its callback removes `text-success` from. -/
structure Timeout where
  due : Nat
  target : String
  deriving DecidableEq, Repr

/-- An entry written by `console.error`. -/
structure LogEntry where
  message : String
  error : String
  deriving DecidableEq, Repr

/-- The part of the page `updateBalance` reads and writes: the clock in milliseconds,
the elements by id, the pending timeouts in the order they were scheduled, and the
error log. -/
structure BalancePage where
  now : Nat
  elements : List (String × BalanceElement)
  timeouts : List Timeout
  log : List LogEntry
  deriving DecidableEq, Repr

/-- The parsed body of a response: the body `null`, or any other value together with
its `balance` property (`none` when the property is undefined). -/
inductive JsonData where
  | null
  | value (balance : Option JSValue)

/-- How the request of `updateBalance` ends: `fetch` is rejected, the body is not
valid JSON and `response.json()` is rejected, or the body is parsed. -/
inductive FetchOutcome where
  | rejected (reason : String)
  | invalidJson (reason : String)
  | json (data : JsonData)

/-- The class name of the transient success marker. -/
def successMarker : String := "text-success"

/-- The call `document.getElementById(id)`. -/
def getElementById (s : BalancePage) (id : String) : Option BalanceElement :=
  s.elements.lookup id

/-- The element with the given id replaced by its image under `f`. -/
def modifyElement (id : String) (f : BalanceElement → BalanceElement) :
    List (String × BalanceElement) → List (String × BalanceElement)
  | [] => []
  | (k, e) :: rest =>
      if id == k then (k, f e) :: rest else (k, e) :: modifyElement id f rest

/-- The call `classList.add(token)`. -/
def classListAdd (classes : List String) (token : String) : List String :=
  if token ∈ classes then classes else classes ++ [token]

/-- The call `classList.remove(token)`. -/
def classListRemove (classes : List String) (token : String) : List String :=
  classes.filter (fun c => c != token)

/-- The call `setTimeout(callback, delay)` for the callback that removes the success
marker from the element `target`. -/
def setTimeout (s : BalancePage) (delay : Nat) (target : String) : BalancePage :=
  { s with timeouts := s.timeouts ++ [{ due := s.now + delay, target := target }] }

/-- The effect of `balanceElement.classList.remove('text-success')` on the element. -/
def unmark (e : BalanceElement) : BalanceElement :=
  { e with classList := classListRemove e.classList successMarker }

/-- The callback of a timeout, run on the element it has captured. -/
def runTimeout (s : BalancePage) (t : Timeout) : BalancePage :=
  { s with elements := modifyElement t.target unmark s.elements }

/-- The event loop up to time `t`: the pending timeouts due by then run, in the order
they were scheduled, and are dropped from the queue. -/
def advanceTo (t : Nat) (s : BalancePage) : BalancePage :=
  { (s.timeouts.filter (fun x => decide (x.due ≤ t))).foldl runTimeout s with
    now := max s.now t
    timeouts := s.timeouts.filter (fun x => !decide (x.due ≤ t)) }

/-- The body of the `try` block of `updateBalance`, run when the request has ended:
the error thrown, or the page after the block. -/
def updateBalanceTry (P : Platform) (address : String) (r : FetchOutcome)
    (s : BalancePage) : Except String BalancePage :=
  match r with
  | .rejected reason => .error reason
  | .invalidJson reason => .error reason
  | .json data =>
      match getElementById s ("balance-" ++ address) with
      | none => .ok s
      | some balanceElement =>
          match data with
          | .null => .error "TypeError: data is null"
          | .value none => .ok s
          | .value (some balance) =>
              match parseFloat P balance with
              | .error e => .error e
              | .ok x =>
                  let written : BalanceElement :=
                    { textContent := toFixed P x 2
                      classList := classListAdd balanceElement.classList successMarker }
                  .ok (setTimeout
                    { s with
                      elements := modifyElement ("balance-" ++ address) (fun _ => written)
                        s.elements }
                    1000 ("balance-" ++ address))

/-- The function `updateBalance`: the `try` block, and the `catch` block that logs the
error. -/
def updateBalance (P : Platform) (address : String) (r : FetchOutcome)
    (s : BalancePage) : BalancePage :=
  match updateBalanceTry P address r s with
  | .ok s' => s'
  | .error e => { s with log := s.log ++ [{ message := "Error fetching balance:", error := e }] }

/-- The text of the element `balance-` followed by the address. -/
def balanceText (s : BalancePage) (address : String) : Option String :=
  (getElementById s ("balance-" ++ address)).map (fun e => e.textContent)

/-- Whether the element `balance-` followed by the address carries the success marker
(`none` when there is no such element). -/
def hasMarker (s : BalancePage) (address : String) : Option Bool :=
  (getElementById s ("balance-" ++ address)).map (fun e => decide (successMarker ∈ e.classList))

/-- A response body `{ balance: x }` for a number `x`. -/
def balanceResponse (x : JSNumber) : FetchOutcome := .json (.value (some (.number x)))

/-- A response body `{ balance: { toString: null } }`: the balance is an object with an
own property `toString`. -/
def objectResponse : FetchOutcome := .json (.value (some (.object ["toString"])))

/-- A page at time 0 with one balance element, for the address `abc`, nothing pending
and nothing logged. -/
def freshBalancePage : BalancePage :=
  { now := 0
    elements := [("balance-abc", { textContent := "0.00", classList := ["badge"] })]
    timeouts := []
    log := [] }

/-! ## Properties of `formatNumber` -/

theorem isDigit_digitChar (k : Nat) (h : k < 10) : isDigit (Nat.digitChar k) = true := by
  interval_cases k <;> decide

theorem toDigitsCore_all_digits (fuel : Nat) :
    ∀ (n : Nat) (ds : List Char), (∀ c ∈ ds, isDigit c = true) →
      ∀ c ∈ Nat.toDigitsCore 10 fuel n ds, isDigit c = true := by
  induction fuel with
  | zero => intro n ds h; simpa [Nat.toDigitsCore] using h
  | succ fuel ih =>
    intro n ds h
    have hd : isDigit (Nat.digitChar (n % 10)) = true :=
      isDigit_digitChar _ (Nat.mod_lt _ (by decide))
    have hcons : ∀ c ∈ Nat.digitChar (n % 10) :: ds, isDigit c = true := by
      intro c hc
      rcases List.mem_cons.mp hc with rfl | hc
      · exact hd
      · exact h c hc
    simp only [Nat.toDigitsCore]
    split
    · exact hcons
    · exact ih _ _ hcons

theorem toDigitsCore_ne_nil (fuel : Nat) :
    ∀ (n : Nat) (ds : List Char), ds ≠ [] → Nat.toDigitsCore 10 fuel n ds ≠ [] := by
  induction fuel with
  | zero => intro n ds h; simpa [Nat.toDigitsCore] using h
  | succ fuel ih =>
    intro n ds _
    simp only [Nat.toDigitsCore]
    split
    · simp
    · exact ih _ _ (by simp)

theorem repr_all_digits (m : Nat) : ∀ c ∈ (Nat.repr m).toList, isDigit c = true := by
  simp only [Nat.repr, Nat.toDigits, List.asString]
  exact toDigitsCore_all_digits _ _ _ (by simp)

theorem repr_ne_nil (m : Nat) : (Nat.repr m).toList ≠ [] := by
  simp only [Nat.repr, Nat.toDigits, List.asString, Nat.toDigitsCore]
  split
  · simp
  · exact toDigitsCore_ne_nil _ _ _ (by simp)

theorem matchGroups_digits (n : Nat) :
    ∀ ds : List Char, ds.length ≤ n → (∀ c ∈ ds, isDigit c = true) →
      matchGroups ds = decide (ds ≠ [] ∧ ds.length % 3 = 0) := by
  induction n with
  | zero =>
    intro ds hlen _
    have : ds = [] := List.length_eq_zero.mp (by omega)
    subst this
    simp [matchGroups]
  | succ n ih =>
    intro ds hlen hd
    match ds, hlen, hd with
    | [], _, _ => simp [matchGroups]
    | [_], _, _ => simp [matchGroups]
    | [_, _], _, _ => simp [matchGroups]
    | a :: b :: c :: rest, hlen, hd =>
      have ha : isDigit a = true := hd a (by simp)
      have hb : isDigit b = true := hd b (by simp)
      have hc : isDigit c = true := hd c (by simp)
      have hrest : ∀ x ∈ rest, isDigit x = true := fun x hx => hd x (by simp [hx])
      have ihr := ih rest (by simp at hlen; omega) hrest
      simp only [matchGroups, ha, hb, hc, Bool.true_and, ihr]
      cases rest with
      | nil => simp [notFollowedByDigit]
      | cons d rest' =>
        have hdd : isDigit d = true := hrest d (by simp)
        simp [notFollowedByDigit, hdd]
        omega

theorem replaceFrom_digits (ds : List Char) :
    ∀ p : Char, isWordChar p = true → (∀ c ∈ ds, isDigit c = true) →
      replaceFrom (some p) ds =
        (if ds ≠ [] ∧ ds.length % 3 = 0 then [','] else []) ++ insertCommas ds := by
  induction ds with
  | nil => intro p _ _; simp [replaceFrom, matchesAt, matchGroups, insertCommas]
  | cons c rest ih =>
    intro p hp hd
    have hc : isDigit c = true := hd c (by simp)
    have hcw : isWordChar c = true := by simp [isWordChar, hc]
    have hrest : ∀ x ∈ rest, isDigit x = true := fun x hx => hd x (by simp [hx])
    have hm : matchesAt (some p) (c :: rest)
        = decide ((c :: rest) ≠ [] ∧ (c :: rest).length % 3 = 0) := by
      simp only [matchesAt, nonWordBoundary, isWordAt, List.head?, hp, hcw]
      rw [matchGroups_digits _ _ (le_refl _) hd]
      simp
    rw [replaceFrom, hm, ih c hcw hrest]
    simp only [insertCommas, decide_eq_true_eq]
    by_cases h1 : rest ≠ [] ∧ rest.length % 3 = 0 <;> simp [h1]

theorem replaceFrom_start (q : Option Char) (hq : isWordAt q = false) (ds : List Char)
    (hne : ds ≠ []) (hd : ∀ c ∈ ds, isDigit c = true) :
    replaceFrom q ds = insertCommas ds := by
  match ds, hne, hd with
  | c :: rest, _, hd =>
    have hc : isDigit c = true := hd c (by simp)
    have hcw : isWordChar c = true := by simp [isWordChar, hc]
    have hrest : ∀ x ∈ rest, isDigit x = true := fun x hx => hd x (by simp [hx])
    have hm : matchesAt q (c :: rest) = false := by
      unfold matchesAt nonWordBoundary
      rw [hq]
      simp [isWordAt, hcw]
    rw [replaceFrom, hm, replaceFrom_digits rest c hcw hrest]
    simp only [insertCommas]
    by_cases h1 : rest ≠ [] ∧ rest.length % 3 = 0 <;> simp [h1]

theorem formatNumber_eq_grouped (n : Int) : formatNumber n = groupedDecimal n := by
  cases n with
  | ofNat m =>
    show replaceFrom none (Nat.repr m).toList = insertCommas (Nat.repr m).toList
    exact replaceFrom_start none rfl _ (repr_ne_nil m) (repr_all_digits m)
  | negSucc m =>
    show replaceFrom none ("-" ++ Nat.repr (m + 1)).toList
      = '-' :: insertCommas (Nat.repr (m + 1)).toList
    have hl : ("-" ++ Nat.repr (m + 1)).toList = '-' :: (Nat.repr (m + 1)).toList := by
      simp [String.toList]
    have hm : matchesAt none ('-' :: (Nat.repr (m + 1)).toList) = false := by
      have : isDigit '-' = false := by decide
      rcases h : (Nat.repr (m + 1)).toList with _ | ⟨a, _ | ⟨b, r⟩⟩ <;>
        simp [matchesAt, matchGroups, this]
    rw [hl, replaceFrom, hm,
      replaceFrom_start (some '-') (by decide) _ (repr_ne_nil _) (repr_all_digits _)]
    simp

theorem toString_eq_sign_digits (n : Int) :
    (toString n).toList = signChars n ++ decimalDigits n := by
  cases n with
  | ofNat m =>
    show (Nat.repr m).toList = _
    simp [signChars, decimalDigits]
  | negSucc m =>
    show ("-" ++ Nat.repr (m + 1)).toList = _
    have h : Int.negSucc m < 0 := Int.negSucc_lt_zero m
    simp [signChars, decimalDigits, h, String.toList, Int.natAbs]

theorem groupedDecimal_eq (n : Int) :
    groupedDecimal n = signChars n ++ insertCommas (decimalDigits n) := by
  cases n with
  | ofNat m => simp [groupedDecimal, signChars, decimalDigits]
  | negSucc m =>
    have h : Int.negSucc m < 0 := Int.negSucc_lt_zero m
    simp [groupedDecimal, signChars, decimalDigits, h, Int.natAbs]

theorem comma_not_digit (c : Char) (h : isDigit c = true) : (c != ',') = true := by
  have : isDigit ',' = false := by decide
  cases hc : (c != ',')
  · simp at hc; subst hc; simp [this] at h
  · rfl

theorem filter_insertCommas (ds : List Char) (hd : ∀ c ∈ ds, isDigit c = true) :
    (insertCommas ds).filter (fun c => c != ',') = ds := by
  induction ds with
  | nil => simp [insertCommas]
  | cons c rest ih =>
    have hc := comma_not_digit c (hd c (by simp))
    have hrest := ih (fun x hx => hd x (by simp [hx]))
    simp only [insertCommas]
    by_cases h1 : rest ≠ [] ∧ rest.length % 3 = 0
    · rw [if_pos h1]
      simp [List.filter_cons, hc, hrest]
    · rw [if_neg h1]
      simp [List.filter_cons, hc, hrest]

theorem intercalate_cons_cons (sep g h : List Char) (gs : List (List Char)) :
    List.intercalate sep (g :: h :: gs) = g ++ sep ++ List.intercalate sep (h :: gs) := by
  simp [List.intercalate, List.intersperse]

theorem length_join_of_three (gs : List (List Char)) (h : ∀ x ∈ gs, x.length = 3) :
    gs.flatten.length = 3 * gs.length := by
  induction gs with
  | nil => simp
  | cons x xs ih =>
    have hx := h x (by simp)
    have := ih (fun y hy => h y (by simp [hy]))
    simp [hx, this]
    omega

theorem insertCommas_groups (ds : List Char) (hne : ds ≠ []) :
    ∃ g gs, insertCommas ds = List.intercalate [','] (g :: gs) ∧ (g :: gs).flatten = ds ∧
      1 ≤ g.length ∧ g.length ≤ 3 ∧ ∀ x ∈ gs, x.length = 3 := by
  induction ds with
  | nil => exact absurd rfl hne
  | cons c rest ih =>
    by_cases hr : rest = []
    · subst hr
      exact ⟨[c], [], by simp [insertCommas, List.intercalate], by simp, by simp, by simp,
        by simp⟩
    · obtain ⟨g, gs, h1, h2, h3, h4, h5⟩ := ih hr
      have hlen : rest.length = g.length + 3 * gs.length := by
        rw [← h2, List.flatten_cons, List.length_append, length_join_of_three gs h5]
      by_cases hm : rest.length % 3 = 0
      · refine ⟨[c], g :: gs, ?_, ?_, by simp, by simp, ?_⟩
        · rw [intercalate_cons_cons, ← h1]
          simp [insertCommas, hr, hm]
        · simp only [List.flatten_cons] at h2 ⊢
          simp [h2]
        · intro x hx
          rcases List.mem_cons.mp hx with rfl | hx
          · omega
          · exact h5 x hx
      · refine ⟨c :: g, gs, ?_, ?_, by simp, ?_, h5⟩
        · have hi : insertCommas (c :: rest) = c :: insertCommas rest := by
            simp [insertCommas, hm]
          rw [hi, h1]
          cases gs with
          | nil => simp [List.intercalate]
          | cons x xs => simp [intercalate_cons_cons]
        · simp only [List.flatten_cons] at h2 ⊢
          simp [h2]
        · simp only [List.length_cons]
          omega

theorem insertCommas_short (ds : List Char) (h : ds.length ≤ 3) : insertCommas ds = ds := by
  match ds, h with
  | [], _ => rfl
  | [_], _ => simp [insertCommas]
  | [_, _], _ => simp [insertCommas]
  | [_, _, _], _ => simp [insertCommas]
  | _ :: _ :: _ :: _ :: _, h => simp at h

theorem decimalDigits_digits (n : Int) : ∀ c ∈ decimalDigits n, isDigit c = true :=
  repr_all_digits _

/-- C8: on an integer printed in plain decimal notation, `formatNumber` returns the
representation with a comma between two digits exactly where a positive multiple of
three digits lies to the right; removing the commas gives the representation back; the
digits fall into comma-separated groups, the first of one to three digits and every
later one of exactly three; a number of at most three digits is returned unchanged. -/
theorem formatNumber_integer (n : Int) :
    formatNumber n = groupedDecimal n ∧
    groupedDecimal n = signChars n ++ insertCommas (decimalDigits n) ∧
    (toString n).toList = signChars n ++ decimalDigits n ∧
    (∀ c ∈ decimalDigits n, isDigit c = true) ∧
    (formatNumber n).filter (fun c => c != ',') = (toString n).toList ∧
    (∃ g gs, formatNumber n = signChars n ++ List.intercalate [','] (g :: gs) ∧
      (g :: gs).flatten = decimalDigits n ∧ 1 ≤ g.length ∧ g.length ≤ 3 ∧
      ∀ x ∈ gs, x.length = 3) ∧
    ((decimalDigits n).length ≤ 3 → formatNumber n = (toString n).toList) := by
  have hf : formatNumber n = signChars n ++ insertCommas (decimalDigits n) := by
    rw [formatNumber_eq_grouped, groupedDecimal_eq]
  refine ⟨formatNumber_eq_grouped n, groupedDecimal_eq n, toString_eq_sign_digits n,
    decimalDigits_digits n, ?_, ?_, ?_⟩
  · rw [hf, toString_eq_sign_digits, List.filter_append,
      filter_insertCommas _ (decimalDigits_digits n)]
    congr 1
    unfold signChars
    split <;> simp
  · obtain ⟨g, gs, h1, h2, h3, h4, h5⟩ := insertCommas_groups (decimalDigits n) (repr_ne_nil _)
    exact ⟨g, gs, by rw [hf, h1], h2, h3, h4, h5⟩
  · intro h
    rw [hf, toString_eq_sign_digits, insertCommas_short _ h]

/-- Witness for C8 at `-1234567` and `999`. -/
theorem formatNumber_integer_witness :
    formatNumber (-1234567) = "-1,234,567".toList ∧ formatNumber 999 = "999".toList :=
  ⟨(formatNumber_integer (-1234567)).1.trans (by decide),
   (formatNumber_integer 999).2.2.2.2.2.2 (by decide)⟩

/-- C9: at `1234.5678`, printed `"1234.5678"`, `formatNumber` also puts a comma into the
fractional digits and returns `"1,234.5,678"`, whereas grouping the integer part only
gives `"1,234.5678"`. -/
theorem formatNumber_fraction_gets_comma :
    formatNumberStr "1234.5678".toList = "1,234.5,678".toList ∧
    groupIntegerPart "1234.5678".toList = "1,234.5678".toList ∧
    formatNumberStr "1234.5678".toList ≠ groupIntegerPart "1234.5678".toList := by
  decide

/-! ## Properties of `truncateText` -/

/-- C10: `truncateText` returns the text unchanged when it has at most `maxLength` code
units, and otherwise its first `maxLength` code units followed by `"..."`, which are
`maxLength + 3` code units; an omitted `maxLength` counts as 20. -/
theorem truncateText_spec (text : JSString) (maxLength : Nat) :
    truncateText text none = truncateText text (some 20) ∧
    (text.length ≤ maxLength → truncateText text (some maxLength) = text) ∧
    (maxLength < text.length →
      truncateText text (some maxLength) = text.take maxLength ++ [46, 46, 46] ∧
      (truncateText text (some maxLength)).length = maxLength + 3) := by
  refine ⟨rfl, ?_, ?_⟩
  · intro h
    simp [truncateText, h]
  · intro h
    have hn : ¬ text.length ≤ maxLength := by omega
    simp only [truncateText, Option.getD_some, hn, if_false, ellipsis, true_and,
      List.length_append, List.length_take, List.length_cons, List.length_nil]
    omega

/-- Witness for C10: a five-unit text cut at two, and the same text left whole at five. -/
theorem truncateText_spec_witness :
    truncateText [72, 101, 108, 108, 111] (some 2) = [72, 101, 46, 46, 46] ∧
    truncateText [72, 101, 108, 108, 111] (some 5) = [72, 101, 108, 108, 111] :=
  ⟨((truncateText_spec [72, 101, 108, 108, 111] 2).2.2 (by decide)).1,
   (truncateText_spec [72, 101, 108, 108, 111] 5).2.1 (by decide)⟩

/-! ## Properties of `showMiningProgress` -/

theorem fireAll_append (xs ys : List ProgressTimer) :
    ∀ bar, fireAll (xs ++ ys) bar =
      ((fireAll xs bar).1 ++ (fireAll ys (fireAll xs bar).2).1,
        (fireAll ys (fireAll xs bar).2).2) := by
  induction xs with
  | nil => intro bar; simp [fireAll]
  | cons t ts ih =>
    intro bar
    simp only [List.cons_append, fireAll]
    split <;> simp [ih]

theorem callback_isSome (t : ProgressTimer) (bar : Option String) :
    (callback t bar).2.isSome = bar.isSome := by
  unfold callback
  split
  · rfl
  · cases t.hasBar <;> cases bar <;> simp

theorem fireAll_isSome (ts : List ProgressTimer) :
    ∀ bar, (fireAll ts bar).2.isSome = bar.isSome := by
  induction ts with
  | nil => intro bar; rfl
  | cons t ts ih =>
    intro bar
    simp only [fireAll]
    split
    · exact ih bar
    · simp [ih, callback_isSome]

/-- An interval that is cleared or whose counter has reached 100 writes nothing. -/
theorem fireAll_quiet (ts : List ProgressTimer) :
    ∀ bar, (∀ t ∈ ts, t.cleared = true ∨ 100 ≤ t.width) → (fireAll ts bar).2 = bar := by
  induction ts with
  | nil => intro bar _; rfl
  | cons t ts ih =>
    intro bar h
    have hts : ∀ x ∈ ts, x.cleared = true ∨ 100 ≤ x.width := fun x hx => h x (by simp [hx])
    simp only [fireAll]
    split
    · exact ih bar hts
    · rename_i hc
      have hw : 100 ≤ t.width := by
        rcases h t (by simp) with h1 | h1
        · exact absurd h1 hc
        · exact h1
      have : (callback t bar).2 = bar := by simp [callback, hw]
      simp only [this]
      exact ih bar hts

/-- An interval created at least `k` ticks ago is cleared or has counted to `2 * k`. -/
theorem fireAll_older (k : Nat) (ts : List ProgressTimer) :
    ∀ bar, (∀ t ∈ ts, t.cleared = true ∨ 2 * k ≤ t.width) →
      ∀ t ∈ (fireAll ts bar).1, t.cleared = true ∨ 2 * (k + 1) ≤ t.width := by
  induction ts with
  | nil => intro bar _ t ht; simp [fireAll] at ht
  | cons x ts ih =>
    intro bar h t ht
    have hts : ∀ y ∈ ts, y.cleared = true ∨ 2 * k ≤ y.width := fun y hy => h y (by simp [hy])
    simp only [fireAll] at ht
    split at ht
    · rename_i hc
      rcases List.mem_cons.mp ht with rfl | ht
      · exact Or.inl hc
      · exact ih bar hts t ht
    · rename_i hc
      rcases List.mem_cons.mp ht with rfl | ht
      · have hx : 2 * k ≤ x.width := by
          rcases h x (by simp) with h1 | h1
          · exact absurd h1 hc
          · exact h1
        unfold callback
        split
        · exact Or.inl rfl
        · right
          show 2 * (k + 1) ≤ x.width + 2
          omega
      · exact ih _ hts t ht

theorem fireAll_timerAfter (h : Bool) (k : Nat) (bar : Option String) :
    (fireAll [timerAfter h k] bar).1 = [timerAfter h (k + 1)] := by
  rcases Nat.lt_or_ge k 50 with hk | hk
  · have h1 : ¬ (51 ≤ k) := by omega
    have h2 : ¬ (51 ≤ k + 1) := by omega
    have h3 : ¬ (min (2 * k) 100 ≥ 100) := by omega
    simp only [fireAll, timerAfter, callback, h1, h2, h3, decide_False, if_false,
      Bool.false_eq_true]
    congr 2
    · omega
    · omega
  · rcases Nat.eq_or_lt_of_le hk with hk | hk
    · subst hk
      rfl
    · have h1 : 51 ≤ k := by omega
      have h2 : 51 ≤ k + 1 := by omega
      simp only [fireAll, timerAfter, h1, h2, decide_True, if_true]
      congr 2
      · omega
      · omega

theorem fireAll_timerAfter_bar (k : Nat) (b : String) :
    (fireAll [timerAfter true k] (some b)).2 =
      if k < 50 then some (percent (2 * (k + 1))) else some b := by
  rcases Nat.lt_or_ge k 50 with hk | hk
  · have h1 : ¬ (51 ≤ k) := by omega
    have h3 : ¬ (min (2 * k) 100 ≥ 100) := by omega
    have h4 : min (2 * k) 100 + 2 = 2 * (k + 1) := by omega
    simp [fireAll, timerAfter, callback, h1, h3, hk, h4]
  · have hk2 : ¬ k < 50 := by omega
    have h3 : min (2 * k) 100 ≥ 100 := by omega
    by_cases h1 : 51 ≤ k
    · simp [fireAll, timerAfter, h1, hk2]
    · simp [fireAll, timerAfter, callback, h1, h3, hk2]

theorem showMiningProgress_present (p : MiningPage) (button : MineButton)
    (progress : MiningProgress) (hf : p.miningForm = true)
    (hb : p.mineButton = some button) (hp : p.miningProgress = some progress) :
    showMiningProgress p =
      { p with
        mineButton := some { button with disabled := true, innerHTML := miningLabel }
        miningProgress := some { progress with display := "block" }
        timers := p.timers ++
          [{ width := 0, hasBar := progress.bar.isSome, cleared := false, calls := 0 }] } := by
  simp [showMiningProgress, hf, hb, hp]

/-- The intervals `k` ticks after a call: the older ones, then the one of the call in
the state `timerAfter`. -/
theorem ticks_timers (p : MiningPage) (button : MineButton) (progress : MiningProgress)
    (hf : p.miningForm = true) (hb : p.mineButton = some button)
    (hp : p.miningProgress = some progress) (k : Nat) :
    ∃ olds, (ticks k (showMiningProgress p)).timers
        = olds ++ [timerAfter progress.bar.isSome k] ∧
      ∀ t ∈ olds, t.cleared = true ∨ 2 * k ≤ t.width := by
  induction k with
  | zero =>
    refine ⟨p.timers, ?_, fun t _ => Or.inr (Nat.zero_le _)⟩
    rw [ticks, showMiningProgress_present p button progress hf hb hp]
    rfl
  | succ k ih =>
    obtain ⟨olds, h1, h2⟩ := ih
    refine ⟨(fireAll olds (barWidth (ticks k (showMiningProgress p)))).1, ?_,
      fireAll_older k olds _ h2⟩
    simp only [ticks, tick, h1, fireAll_append, fireAll_timerAfter]

theorem ticks_progress_isSome (p : MiningPage) (k : Nat) :
    (ticks k p).miningProgress.isSome = p.miningProgress.isSome := by
  induction k with
  | zero => rfl
  | succ k ih => simp [ticks, tick, ih]

theorem ticks_button (p : MiningPage) (k : Nat) :
    (ticks k p).mineButton = p.mineButton ∧ (ticks k p).miningForm = p.miningForm := by
  induction k with
  | zero => exact ⟨rfl, rfl⟩
  | succ k ih => simpa [ticks, tick] using ih

theorem barWidth_tick (q : MiningPage) (h : q.miningProgress.isSome = true) :
    barWidth (tick q) = (fireAll q.timers (barWidth q)).2 := by
  cases hq : q.miningProgress with
  | none => simp [hq] at h
  | some g => simp [tick, barWidth, hq]

/-- The width of the bar `k` ticks after a call made on a page with a progress bar. -/
theorem ticks_bar (p : MiningPage) (button : MineButton) (progress : MiningProgress)
    (w0 : String) (hf : p.miningForm = true) (hb : p.mineButton = some button)
    (hp : p.miningProgress = some progress) (hbar : progress.bar = some w0) (k : Nat) :
    barWidth (ticks (k + 1) (showMiningProgress p)) = some (percent (min (2 * (k + 1)) 100)) := by
  have hsome : ∀ j, (ticks j (showMiningProgress p)).miningProgress.isSome = true := by
    intro j
    rw [ticks_progress_isSome, showMiningProgress_present p button progress hf hb hp]
    rfl
  have hstart : ∃ b, barWidth (showMiningProgress p) = some b := by
    refine ⟨w0, ?_⟩
    rw [showMiningProgress_present p button progress hf hb hp]
    simp [barWidth, hbar]
  have key : ∀ j, ∃ b, barWidth (ticks j (showMiningProgress p)) = some b ∧
      (1 ≤ j → b = percent (min (2 * j) 100)) := by
    intro j
    induction j with
    | zero =>
      obtain ⟨b, hb0⟩ := hstart
      exact ⟨b, hb0, fun h => absurd h (by decide)⟩
    | succ j ih =>
      obtain ⟨b, hb1, hb2⟩ := ih
      obtain ⟨olds, ht1, ht2⟩ := ticks_timers p button progress hf hb hp j
      have hbs : progress.bar.isSome = true := by simp [hbar]
      rw [hbs] at ht1
      have hstep : barWidth (ticks (j + 1) (showMiningProgress p)) =
          (fireAll [timerAfter true j] (fireAll olds (some b)).2).2 := by
        rw [ticks, barWidth_tick _ (hsome j), ht1, fireAll_append, hb1]
      obtain ⟨b1, hb1s⟩ : ∃ b1, (fireAll olds (some b)).2 = some b1 := by
        have := fireAll_isSome olds (some b)
        cases hx : (fireAll olds (some b)).2 with
        | none => simp [hx] at this
        | some b1 => exact ⟨b1, rfl⟩
      rw [hb1s, fireAll_timerAfter_bar] at hstep
      rcases Nat.lt_or_ge j 50 with hj | hj
      · rw [if_pos hj] at hstep
        refine ⟨_, hstep, fun _ => ?_⟩
        congr 1
        omega
      · rw [if_neg (by omega)] at hstep
        have hq : (fireAll olds (some b)).2 = some b :=
          fireAll_quiet olds _ (fun t ht => by
            rcases ht2 t ht with h1 | h1
            · exact Or.inl h1
            · exact Or.inr (by omega))
        have hbb : b1 = b := by
          rw [hq] at hb1s
          exact (Option.some.inj hb1s).symm
        refine ⟨b1, hstep, fun _ => ?_⟩
        rw [hbb, hb2 (by omega)]
        congr 1
        omega
  obtain ⟨b, h1, h2⟩ := key (k + 1)
  rw [h1, h2 (by omega)]

theorem percent_eq_hundred (j : Nat) (hj : j ≤ 50) : percent (2 * j) = "100%" ↔ j = 50 := by
  interval_cases j <;> decide

/-- C1: after a call of `showMiningProgress` on a page that has the form, the button and
the progress container with a progress bar, the width of the bar after `k ≥ 1` timer
ticks is `min (2 * k) 100` percent; it is `"100%"` exactly from the 50th tick on, it is
`2 * k` percent with `2 * k < 100` before, and no tick after the 50th changes it. -/
theorem showMiningProgress_bar_width (p : MiningPage) (button : MineButton)
    (progress : MiningProgress) (w0 : String) (hf : p.miningForm = true)
    (hb : p.mineButton = some button) (hp : p.miningProgress = some progress)
    (hbar : progress.bar = some w0) (k : Nat) (hk : 1 ≤ k) :
    barWidth (ticks k (showMiningProgress p)) = some (percent (min (2 * k) 100)) ∧
    (barWidth (ticks k (showMiningProgress p)) = some "100%" ↔ 50 ≤ k) ∧
    (k < 50 → barWidth (ticks k (showMiningProgress p)) = some (percent (2 * k)) ∧
      2 * k < 100) ∧
    (50 ≤ k → barWidth (ticks (k + 1) (showMiningProgress p))
      = barWidth (ticks k (showMiningProgress p))) := by
  have hw : ∀ j, 1 ≤ j →
      barWidth (ticks j (showMiningProgress p)) = some (percent (min (2 * j) 100)) := by
    intro j hj
    obtain ⟨i, rfl⟩ : ∃ i, j = i + 1 := ⟨j - 1, by omega⟩
    exact ticks_bar p button progress w0 hf hb hp hbar i
  refine ⟨hw k hk, ?_, ?_, ?_⟩
  · rw [hw k hk]
    constructor
    · intro h
      by_contra hlt
      have h1 : min (2 * k) 100 = 2 * k := by omega
      rw [h1] at h
      have := (percent_eq_hundred k (by omega)).mp (Option.some.inj h)
      omega
    · intro h
      have h1 : min (2 * k) 100 = 100 := by omega
      rw [h1]
      rfl
  · intro h
    have h1 : min (2 * k) 100 = 2 * k := by omega
    rw [hw k hk, h1]
    exact ⟨rfl, by omega⟩
  · intro h
    rw [hw k hk, hw (k + 1) (by omega)]
    have h1 : min (2 * k) 100 = 100 := by omega
    have h2 : min (2 * (k + 1)) 100 = 100 := by omega
    rw [h1, h2]

/-- Witness for C1: the fresh page, 50 ticks after the call. -/
theorem showMiningProgress_bar_width_witness :
    1 ≤ 50 ∧ barWidth (ticks 50 (showMiningProgress freshMiningPage)) = some "100%" :=
  ⟨by decide,
    ((showMiningProgress_bar_width freshMiningPage _ _ "0%" rfl rfl rfl rfl 50
      (by decide)).2.1).mpr (by decide)⟩

/-- C2, as stated, fails: 50 ticks after the call on the fresh page the interval has not
been cleared, and the callback is invoked a 51st time. -/
theorem interval_alive_after_fifty_ticks :
    (newestTimer (ticks 50 (showMiningProgress freshMiningPage))).map (fun t => t.cleared)
      = some false ∧
    (newestTimer (ticks 51 (showMiningProgress freshMiningPage))).map (fun t => t.calls)
      = some 51 := by
  decide

/-- C2, amended: the interval created by `showMiningProgress` is cleared by the callback
invocation that follows the one on which the counter reaches 100.  After `k` ticks the
counter is `min (2 * k) 100`, the callback has run `min k 51` times, and the interval is
cleared exactly when `51 ≤ k`: the callback runs 51 times and never a 52nd time. -/
theorem showMiningProgress_interval (p : MiningPage) (button : MineButton)
    (progress : MiningProgress) (hf : p.miningForm = true)
    (hb : p.mineButton = some button) (hp : p.miningProgress = some progress) (k : Nat) :
    ∃ t, newestTimer (ticks k (showMiningProgress p)) = some t ∧
      t.width = min (2 * k) 100 ∧ t.calls = min k 51 ∧ (t.cleared = true ↔ 51 ≤ k) := by
  obtain ⟨olds, h1, _⟩ := ticks_timers p button progress hf hb hp k
  refine ⟨timerAfter progress.bar.isSome k, ?_, rfl, rfl, ?_⟩
  · simp [newestTimer, h1]
  · simp [timerAfter]

/-- Witness for C2: the fresh page, 51 ticks after the call. -/
theorem showMiningProgress_interval_witness :
    ∃ t, newestTimer (ticks 51 (showMiningProgress freshMiningPage)) = some t ∧
      t.width = min (2 * 51) 100 ∧ t.calls = min 51 51 ∧ (t.cleared = true ↔ 51 ≤ 51) :=
  showMiningProgress_interval freshMiningPage _ _ rfl rfl rfl 51

/-- C3: `showMiningProgress` changes the page exactly when `#miningForm`, `#mineButton`
and `#miningProgress` all exist.  Then the button is disabled and relabelled, the
progress container is shown and one interval is created; when one of the three is
absent the function returns the page as it was. -/
theorem showMiningProgress_guard (p : MiningPage) :
    (showMiningProgress p ≠ p ↔
      (p.miningForm = true ∧ p.mineButton.isSome = true ∧ p.miningProgress.isSome = true)) ∧
    (∀ button progress, p.miningForm = true → p.mineButton = some button →
      p.miningProgress = some progress →
        (showMiningProgress p).miningForm = true ∧
        (showMiningProgress p).mineButton
          = some { disabled := true, innerHTML := miningLabel } ∧
        (showMiningProgress p).miningProgress
          = some { display := "block", bar := progress.bar } ∧
        (showMiningProgress p).timers = p.timers ++
          [{ width := 0, hasBar := progress.bar.isSome, cleared := false, calls := 0 }]) ∧
    ((p.miningForm = false ∨ p.mineButton = none ∨ p.miningProgress = none) →
      showMiningProgress p = p) := by
  have habsent : (p.miningForm = false ∨ p.mineButton = none ∨ p.miningProgress = none) →
      showMiningProgress p = p := by
    intro h
    unfold showMiningProgress
    rcases h with h | h | h
    · rw [h]
    · rw [h]
      split <;> simp_all
    · rw [h]
      split <;> simp_all
  refine ⟨?_, ?_, habsent⟩
  · constructor
    · intro hne
      by_contra hall
      apply hne
      apply habsent
      cases hf : p.miningForm
      · exact Or.inl rfl
      · cases hb : p.mineButton
        · exact Or.inr (Or.inl rfl)
        · cases hp : p.miningProgress
          · exact Or.inr (Or.inr rfl)
          · simp [hf, hb, hp] at hall
    · rintro ⟨hf, hb, hp⟩ heq
      obtain ⟨button, hb⟩ := Option.isSome_iff_exists.mp hb
      obtain ⟨progress, hp⟩ := Option.isSome_iff_exists.mp hp
      have := congrArg (fun q => q.timers.length) heq
      rw [showMiningProgress_present p button progress hf hb hp] at this
      simp at this
  · intro button progress hf hb hp
    rw [showMiningProgress_present p button progress hf hb hp]
    exact ⟨hf, rfl, rfl, rfl⟩

/-- Witness for C3: a page without progress container is left as it was. -/
theorem showMiningProgress_guard_witness :
    showMiningProgress { freshMiningPage with miningProgress := none }
      = { freshMiningPage with miningProgress := none } :=
  (showMiningProgress_guard { freshMiningPage with miningProgress := none }).2.2
    (Or.inr (Or.inr rfl))

/-! ## Properties of `toFixed` -/

theorem magDen_pos (e : Int) : 0 < magDen e := by
  unfold magDen
  positivity

theorem nearest_int (N D T : Nat) (hD : 0 < D) (k : Int) :
    |2 * (((2 * N * T + D) / (2 * D) : Nat) : Int) * D - 2 * N * T|
      ≤ |2 * k * D - 2 * N * T| ∧
    (|2 * (((2 * N * T + D) / (2 * D) : Nat) : Int) * D - 2 * N * T|
      = |2 * k * D - 2 * N * T| → k ≤ (((2 * N * T + D) / (2 * D) : Nat) : Int)) := by
  set n : Nat := (2 * N * T + D) / (2 * D) with hn
  have h1 : 2 * D * n ≤ 2 * N * T + D := Nat.mul_div_le _ _
  have h2 : 2 * N * T + D < 2 * D * (n + 1) := by
    have := Nat.lt_mul_div_succ (2 * N * T + D) (show 0 < 2 * D by omega)
    simpa [hn] using this
  have h1z : (2 * (n : Int) * D - 2 * N * T) ≤ D := by
    have : ((2 * D * n : Nat) : Int) ≤ ((2 * N * T + D : Nat) : Int) := by exact_mod_cast h1
    push_cast at this
    linarith
  have h2z : -(D : Int) < (2 * (n : Int) * D - 2 * N * T) := by
    have : ((2 * N * T + D : Nat) : Int) < ((2 * D * (n + 1) : Nat) : Int) := by exact_mod_cast h2
    push_cast at this
    linarith
  have hDz : (0 : Int) < D := by exact_mod_cast hD
  have hn_abs : |2 * (n : Int) * D - 2 * N * T| ≤ D := abs_le.mpr ⟨by linarith, h1z⟩
  rcases lt_trichotomy k (n : Int) with hk | hk | hk
  · have hk1 : k + 1 ≤ n := hk
    have : (k + 1) * D ≤ n * D := mul_le_mul_of_nonneg_right hk1 hDz.le
    have hle : 2 * k * D - 2 * N * T ≤ -(D : Int) := by nlinarith
    have hk_abs : (D : Int) ≤ |2 * k * D - 2 * N * T| := by
      rw [abs_of_nonpos (by linarith)]
      linarith
    exact ⟨le_trans hn_abs hk_abs, fun _ => hk.le⟩
  · subst hk
    exact ⟨le_refl _, fun _ => le_refl _⟩
  · have hk1 : (n : Int) + 1 ≤ k := hk
    have : ((n : Int) + 1) * D ≤ k * D := mul_le_mul_of_nonneg_right hk1 hDz.le
    have hgt : (D : Int) < 2 * k * D - 2 * N * T := by nlinarith
    have hk_abs : (D : Int) < |2 * k * D - 2 * N * T| := by
      rw [abs_of_pos (by linarith)]
      exact hgt
    refine ⟨le_of_lt (lt_of_le_of_lt hn_abs hk_abs), fun h => ?_⟩
    rw [h] at hn_abs
    exact absurd hn_abs (not_le.mpr hk_abs)

/-- The integer picked by `nearestScaled` is the `n` for which `n / 10 ^ f - x` is
closest to zero, and the larger one when there are two, as `toFixed` is defined. -/
theorem nearestScaled_closest (mantissa : Nat) (exponent : Int) (f : Nat) (k : Int) :
    |(nearestScaled mantissa exponent f : ℚ) / 10 ^ f
        - (magNum mantissa exponent : ℚ) / magDen exponent|
      ≤ |(k : ℚ) / 10 ^ f - (magNum mantissa exponent : ℚ) / magDen exponent| ∧
    (|(nearestScaled mantissa exponent f : ℚ) / 10 ^ f
        - (magNum mantissa exponent : ℚ) / magDen exponent|
      = |(k : ℚ) / 10 ^ f - (magNum mantissa exponent : ℚ) / magDen exponent| →
      k ≤ nearestScaled mantissa exponent f) := by
  have hD := magDen_pos exponent
  obtain ⟨h1, h2⟩ := nearest_int (magNum mantissa exponent) (magDen exponent) (10 ^ f) hD k
  have hDq : (0 : ℚ) < magDen exponent := by exact_mod_cast hD
  have hTq : (0 : ℚ) < (10 : ℚ) ^ f := by positivity
  have key : ∀ j : Int, |(j : ℚ) / 10 ^ f - (magNum mantissa exponent : ℚ) / magDen exponent|
      = ((|2 * j * magDen exponent - 2 * magNum mantissa exponent * (10 ^ f : Nat)| : Int) : ℚ)
        / (2 * 10 ^ f * magDen exponent) := by
    intro j
    have hpos : (0 : ℚ) < 2 * 10 ^ f * magDen exponent := by positivity
    rw [eq_div_iff hpos.ne']
    push_cast
    rw [← abs_of_pos hpos, ← abs_mul]
    congr 1
    field_simp
    ring
  have hpos : (0 : ℚ) < 2 * 10 ^ f * magDen exponent := by positivity
  have e1 := key (nearestScaled mantissa exponent f : Nat)
  have e2 := key k
  simp only [Int.cast_natCast] at e1
  rw [e1, e2]
  constructor
  · apply div_le_div_of_nonneg_right _ hpos.le
    exact_mod_cast h1
  · intro h
    apply h2
    have := (div_left_inj' hpos.ne').mp h
    exact_mod_cast this

theorem isDigit_of_mem_replicate (k : Nat) (c : Char) (h : c ∈ List.replicate k '0') :
    isDigit c = true := by
  rw [(List.mem_replicate.mp h).2]
  decide

/-- The digits printed by `toFixed` for `f ≥ 1` fraction digits: at least one digit, a
point, `f` digits. -/
theorem fixedDigits_shape (n f : Nat) (hf : f ≠ 0) :
    ∃ whole frac : List Char, fixedDigits n f = whole ++ '.' :: frac ∧ whole ≠ [] ∧
      (∀ c ∈ whole, isDigit c = true) ∧ frac.length = f ∧ (∀ c ∈ frac, isDigit c = true) := by
  have hd := repr_all_digits n
  have hlen : 0 < (Nat.repr n).toList.length := List.length_pos.mpr (repr_ne_nil n)
  unfold fixedDigits
  simp only [hf, ne_eq, not_false_eq_true, if_true]
  by_cases hk : (Nat.repr n).toList.length ≤ f
  · simp only [hk, if_true]
    have hpad : ∀ c ∈ List.replicate (f + 1 - (Nat.repr n).toList.length) '0'
        ++ (Nat.repr n).toList, isDigit c = true := by
      intro c hc
      rcases List.mem_append.mp hc with h | h
      · exact isDigit_of_mem_replicate _ c h
      · exact hd c h
    refine ⟨_, _, rfl, ?_, fun c hc => hpad c (List.mem_of_mem_take hc), ?_,
      fun c hc => hpad c (List.mem_of_mem_drop hc)⟩
    · apply List.ne_nil_of_length_pos
      simp only [List.length_take, List.length_append, List.length_replicate]
      omega
    · simp only [List.length_drop, List.length_append, List.length_replicate]
      omega
  · simp only [hk, if_false]
    refine ⟨_, _, rfl, ?_, fun c hc => hd c (List.mem_of_mem_take hc), ?_,
      fun c hc => hd c (List.mem_of_mem_drop hc)⟩
    · apply List.ne_nil_of_length_pos
      simp only [List.length_take]
      omega
    · simp only [List.length_drop]
      omega

theorem toFixed_finite_twoDecimals (P : Platform) (mantissa exponent : Int)
    (hsmall : magNum mantissa.natAbs exponent < 10 ^ 21 * magDen exponent) :
    TwoDecimals (toFixed P (.finite mantissa exponent) 2) := by
  obtain ⟨whole, frac, h1, h2, h3, h4, h5⟩ :=
    fixedDigits_shape (nearestScaled mantissa.natAbs exponent 2) 2 (by decide)
  have hn : ¬ (10 ^ 21 * magDen exponent ≤ magNum mantissa.natAbs exponent) := by omega
  refine ⟨if mantissa < 0 then ['-'] else [], whole, frac, ?_, ?_, h2, h3, h4, h5⟩
  · simp only [toFixed, hn, if_false, h1, List.append_assoc]
    rfl
  · split
    · exact Or.inr rfl
    · exact Or.inl rfl

/-! ## Properties of `updateBalance` -/

theorem lookup_modifyElement (id : String) (f : BalanceElement → BalanceElement)
    (l : List (String × BalanceElement)) :
    (modifyElement id f l).lookup id = (l.lookup id).map f := by
  induction l with
  | nil => rfl
  | cons x rest ih =>
    obtain ⟨k, e⟩ := x
    simp only [modifyElement]
    by_cases h : (id == k) = true
    · simp [h, List.lookup]
    · have h2 : (id == k) = false := by simpa using h
      rw [if_neg h]
      simp only [List.lookup, h2]
      exact ih

theorem lookup_modifyElement_ne (id other : String) (hne : (other == id) = false)
    (f : BalanceElement → BalanceElement) (l : List (String × BalanceElement)) :
    (modifyElement id f l).lookup other = l.lookup other := by
  induction l with
  | nil => rfl
  | cons x rest ih =>
    obtain ⟨k, e⟩ := x
    simp only [modifyElement]
    by_cases h : (id == k) = true
    · have hk : id = k := by simpa using h
      subst hk
      simp [h, List.lookup, hne]
    · rw [if_neg h]
      cases hok : (other == k)
      · simp only [List.lookup, hok]
        exact ih
      · simp only [List.lookup, hok]

theorem classListRemove_idem (classes : List String) (token : String) :
    classListRemove (classListRemove classes token) token = classListRemove classes token := by
  simp [classListRemove, List.filter_filter]

theorem not_mem_classListRemove (classes : List String) (token : String) :
    token ∉ classListRemove classes token := by
  simp [classListRemove, List.mem_filter]

theorem mem_classListAdd (classes : List String) (token : String) :
    token ∈ classListAdd classes token := by
  unfold classListAdd
  split
  · assumption
  · simp

theorem unmark_unmark (e : BalanceElement) : unmark (unmark e) = unmark e := by
  simp [unmark, classListRemove_idem]

/-- The element with a given id after a list of timeouts has run: unmarked when one of
them targets it, untouched otherwise. -/
theorem getElementById_foldl_runTimeout (id : String) (ts : List Timeout) :
    ∀ s : BalancePage, getElementById (ts.foldl runTimeout s) id =
      (getElementById s id).map
        (fun e => if ts.any (fun t => id == t.target) then unmark e else e) := by
  induction ts with
  | nil => intro s; simp
  | cons t ts ih =>
    intro s
    rw [List.foldl_cons, ih]
    by_cases h : (id == t.target) = true
    · have ht : id = t.target := by simpa using h
      have hl : getElementById (runTimeout s t) id = (getElementById s id).map unmark := by
        subst ht
        exact lookup_modifyElement _ _ _
      rw [hl]
      cases getElementById s id with
      | none => rfl
      | some e =>
        simp only [Option.map_some', List.any_cons, h, Bool.true_or, if_true]
        split <;> simp [unmark_unmark]
    · have h2 : (id == t.target) = false := by simpa using h
      have hl : getElementById (runTimeout s t) id = getElementById s id :=
        lookup_modifyElement_ne _ _ h2 _ _
      rw [hl]
      simp [List.any_cons, h2]

theorem foldl_runTimeout_frame (ts : List Timeout) :
    ∀ s : BalancePage, (ts.foldl runTimeout s).now = s.now ∧
      (ts.foldl runTimeout s).timeouts = s.timeouts ∧ (ts.foldl runTimeout s).log = s.log := by
  induction ts with
  | nil => intro s; exact ⟨rfl, rfl, rfl⟩
  | cons t ts ih => intro s; rw [List.foldl_cons]; exact ih (runTimeout s t)

theorem getElementById_advanceTo (id : String) (t : Nat) (s : BalancePage) :
    getElementById (advanceTo t s) id =
      (getElementById s id).map (fun e =>
        if (s.timeouts.filter (fun x => decide (x.due ≤ t))).any (fun x => id == x.target)
        then unmark e else e) := by
  have := getElementById_foldl_runTimeout id
    (s.timeouts.filter (fun x => decide (x.due ≤ t))) s
  simpa [advanceTo, getElementById] using this

/-- The page after the `try` block has written the element. -/
theorem updateBalance_written (P : Platform) (address : String) (balance : JSValue)
    (x : JSNumber) (s : BalancePage) (el : BalanceElement)
    (hel : getElementById s ("balance-" ++ address) = some el)
    (hx : parseFloat P balance = .ok x) :
    updateBalance P address (.json (.value (some balance))) s =
      { s with
        elements := modifyElement ("balance-" ++ address)
          (fun _ => { textContent := toFixed P x 2
                      classList := classListAdd el.classList successMarker })
          s.elements
        timeouts := s.timeouts ++ [{ due := s.now + 1000, target := "balance-" ++ address }] } := by
  simp [updateBalance, updateBalanceTry, hel, hx, setTimeout]

/-- The page after `parseFloat` has thrown in the `try` block: only the log grows. -/
theorem updateBalance_thrown (P : Platform) (address : String) (balance : JSValue)
    (e : String) (s : BalancePage) (el : BalanceElement)
    (hel : getElementById s ("balance-" ++ address) = some el)
    (he : parseFloat P balance = .error e) :
    updateBalance P address (.json (.value (some balance))) s =
      { s with log := s.log ++ [{ message := "Error fetching balance:", error := e }] } := by
  simp [updateBalance, updateBalanceTry, hel, he]

/-- The function `parseFloat` throws only the error of the conversion to a string. -/
theorem parseFloat_error (P : Platform) (balance : JSValue) (e : String)
    (he : parseFloat P balance = .error e) : toStringValue P balance = .error e := by
  cases balance with
  | null => simp [parseFloat] at he
  | bool b => simp [parseFloat] at he
  | number x => simp [parseFloat] at he
  | string s => simp [parseFloat] at he
  | array items =>
    simp only [parseFloat] at he
    rw [toStringValue]
    cases hj : joinItems P items with
    | error e2 => rw [hj] at he; simpa using he
    | ok joined => rw [hj] at he; simp at he
  | object keys =>
    simp only [parseFloat] at he
    cases hj : toStringValue P (.object keys) with
    | error e2 => rw [hj] at he; simpa using he
    | ok joined => rw [hj] at he; simp at he

theorem getElementById_updateBalance (P : Platform) (address : String) (balance : JSValue)
    (x : JSNumber) (s : BalancePage) (el : BalanceElement)
    (hel : getElementById s ("balance-" ++ address) = some el)
    (hx : parseFloat P balance = .ok x) :
    getElementById (updateBalance P address (.json (.value (some balance))) s)
        ("balance-" ++ address) =
      some { textContent := toFixed P x 2
             classList := classListAdd el.classList successMarker } := by
  rw [updateBalance_written P address balance x s el hel hx]
  show (modifyElement _ _ s.elements).lookup _ = _
  rw [lookup_modifyElement]
  have : s.elements.lookup ("balance-" ++ address) = some el := hel
  rw [this]
  rfl

/-- The element after an update and the event loop run to a time `t`: from 1000 ms
after the update on the marker is gone; before, it stays when no earlier timeout for
the element was pending. -/
theorem updateBalance_then_advanceTo (P : Platform) (address : String) (balance : JSValue)
    (x : JSNumber) (s : BalancePage) (el : BalanceElement)
    (hel : getElementById s ("balance-" ++ address) = some el)
    (hx : parseFloat P balance = .ok x) (t : Nat) :
    balanceText (advanceTo t (updateBalance P address (.json (.value (some balance))) s))
        address = some (toFixed P x 2) ∧
    (s.now + 1000 ≤ t →
      hasMarker (advanceTo t (updateBalance P address (.json (.value (some balance))) s))
        address = some false) ∧
    (t < s.now + 1000 → (∀ y ∈ s.timeouts, y.target ≠ "balance-" ++ address) →
      hasMarker (advanceTo t (updateBalance P address (.json (.value (some balance))) s))
        address = some true) := by
  have hget := getElementById_updateBalance P address balance x s el hel hx
  have htm : (updateBalance P address (.json (.value (some balance))) s).timeouts
      = s.timeouts ++ [{ due := s.now + 1000, target := "balance-" ++ address }] := by
    rw [updateBalance_written P address balance x s el hel hx]
  refine ⟨?_, ?_, ?_⟩
  · simp only [balanceText, getElementById_advanceTo, hget, Option.map_some']
    split <;> rfl
  · intro ht
    simp only [hasMarker, getElementById_advanceTo, hget, htm, Option.map_some']
    have hany : ((s.timeouts ++
        [({ due := s.now + 1000, target := "balance-" ++ address } : Timeout)]).filter
        (fun y => decide (y.due ≤ t))).any (fun y => "balance-" ++ address == y.target)
        = true := by
      simp [List.filter_append, ht]
    rw [hany]
    simp [unmark, not_mem_classListRemove]
  · intro ht hnone
    simp only [hasMarker, getElementById_advanceTo, hget, htm, Option.map_some']
    have hany : ((s.timeouts ++
        [({ due := s.now + 1000, target := "balance-" ++ address } : Timeout)]).filter
        (fun y => decide (y.due ≤ t))).any (fun y => "balance-" ++ address == y.target)
        = false := by
      have hnd : ¬ (s.now + 1000 ≤ t) := by omega
      simp only [List.filter_append, List.filter_cons, hnd, decide_False, List.filter_nil,
        List.append_nil, Bool.false_eq_true, if_false]
      rw [List.any_eq_false]
      intro y hy
      have := hnone y (List.mem_of_mem_filter hy)
      simp only [beq_iff_eq]
      exact fun h => this h.symm
    rw [hany]
    simp [mem_classListAdd]

theorem updateBalance_frame (P : Platform) (address : String) (balance : JSValue)
    (x : JSNumber) (s : BalancePage) (el : BalanceElement)
    (hel : getElementById s ("balance-" ++ address) = some el)
    (hx : parseFloat P balance = .ok x) :
    (updateBalance P address (.json (.value (some balance))) s).now = s.now ∧
    (updateBalance P address (.json (.value (some balance))) s).log = s.log ∧
    (updateBalance P address (.json (.value (some balance))) s).timeouts
      = s.timeouts ++ [{ due := s.now + 1000, target := "balance-" ++ address }] := by
  rw [updateBalance_written P address balance x s el hel hx]
  exact ⟨rfl, rfl, rfl⟩

/-- Whatever the balance of a response, `updateBalance` keeps the clock and keeps the
element in the page. -/
theorem updateBalance_keeps_element (P : Platform) (address : String) (balance : JSValue)
    (s : BalancePage) (el : BalanceElement)
    (hel : getElementById s ("balance-" ++ address) = some el) :
    (updateBalance P address (.json (.value (some balance))) s).now = s.now ∧
    ∃ el1, getElementById (updateBalance P address (.json (.value (some balance))) s)
      ("balance-" ++ address) = some el1 := by
  cases hp : parseFloat P balance with
  | error e =>
    rw [updateBalance_thrown P address balance e s el hel hp]
    exact ⟨rfl, el, hel⟩
  | ok x =>
    exact ⟨(updateBalance_frame P address balance x s el hel hp).1, _,
      getElementById_updateBalance P address balance x s el hel hp⟩

theorem not_twoDecimals_of_no_point (text : String) (h : '.' ∉ text.toList) :
    ¬ TwoDecimals text := by
  rintro ⟨sign, whole, frac, heq, _⟩
  apply h
  rw [heq]
  simp

/-- C4, as stated, fails: a response `{ balance: null }` makes `updateBalance` write
`"NaN"`, and a balance that is read as infinity makes it write `"Infinity"`; neither
text has a decimal point. -/
theorem updateBalance_writes_NaN :
    balanceText (updateBalance samplePlatform "abc" (.json (.value (some .null)))
      freshBalancePage) "abc" = some "NaN" ∧
    ¬ TwoDecimals "NaN" ∧
    balanceText (updateBalance samplePlatform "abc" (balanceResponse .posInf)
      freshBalancePage) "abc" = some "Infinity" ∧
    ¬ TwoDecimals "Infinity" :=
  ⟨by decide, not_twoDecimals_of_no_point _ (by decide), by decide,
    not_twoDecimals_of_no_point _ (by decide)⟩

/-- C4, amended: when `updateBalance` writes the display element, the text written is
`parseFloat(balance).toFixed(2)`; it is a decimal numeral with exactly two digits after
the decimal point whenever `parseFloat` reads the balance as a finite number of
magnitude below `10 ^ 21`, and it is `"NaN"`, `"Infinity"` or `"-Infinity"` when the
balance is read as not-a-number or as an infinity.  The element is written exactly when
`parseFloat` returns: when it throws, the text stays as it was. -/
theorem updateBalance_text_format (P : Platform) (address : String) (balance : JSValue)
    (s : BalancePage) (el : BalanceElement)
    (hel : getElementById s ("balance-" ++ address) = some el) :
    (∀ x, parseFloat P balance = .ok x →
      balanceText (updateBalance P address (.json (.value (some balance))) s) address
        = some (toFixed P x 2) ∧
      (∀ mantissa exponent, x = .finite mantissa exponent →
        magNum mantissa.natAbs exponent < 10 ^ 21 * magDen exponent →
        TwoDecimals (toFixed P x 2)) ∧
      (x = .nan → toFixed P x 2 = "NaN") ∧
      (x = .posInf → toFixed P x 2 = "Infinity") ∧
      (x = .negInf → toFixed P x 2 = "-Infinity")) ∧
    (∀ e, parseFloat P balance = .error e →
      balanceText (updateBalance P address (.json (.value (some balance))) s) address
        = some el.textContent) := by
  refine ⟨?_, ?_⟩
  · intro x hx
    refine ⟨?_, ?_, ?_, ?_, ?_⟩
    · simp [balanceText, getElementById_updateBalance P address balance x s el hel hx]
    · intro mantissa exponent hfin hsmall
      rw [hfin]
      exact toFixed_finite_twoDecimals P mantissa exponent hsmall
    · intro h; rw [h]; rfl
    · intro h; rw [h]; rfl
    · intro h; rw [h]; rfl
  · intro e he
    rw [updateBalance_thrown P address balance e s el hel he]
    simp only [balanceText]
    have : getElementById { s with log := s.log ++
        [{ message := "Error fetching balance:", error := e }] } ("balance-" ++ address)
        = some el := hel
    rw [this]
    rfl

/-- Witness for C4: the balance 12.345, the double `6949617174986097 * 2 ^ (-49)`, is
written as `"12.35"`, a numeral with two decimals. -/
theorem updateBalance_text_format_witness :
    balanceText (updateBalance samplePlatform "abc"
      (balanceResponse (.finite 6949617174986097 (-49))) freshBalancePage) "abc"
      = some "12.35" ∧
    TwoDecimals (toFixed samplePlatform (.finite 6949617174986097 (-49)) 2) :=
  ⟨((updateBalance_text_format samplePlatform "abc"
      (.number (.finite 6949617174986097 (-49))) freshBalancePage _ rfl).1 _ rfl).1.trans
      (by decide),
   ((updateBalance_text_format samplePlatform "abc"
      (.number (.finite 6949617174986097 (-49))) freshBalancePage _ rfl).1 _ rfl).2.1
      _ _ rfl (by decide)⟩

/-- The balances 5 and 5.006 (the double `176132966676693 * 2 ^ (-45)`) are written as
`"5.00"` and `"5.01"`. -/
theorem toFixed_examples :
    toFixed samplePlatform (.finite 5 0) 2 = "5.00" ∧
    toFixed samplePlatform (.finite 176132966676693 (-45)) 2 = "5.01" := by
  decide

/-- C5: when `fetch` is rejected or the body is not valid JSON, `updateBalance` leaves
the elements, the pending timeouts and the clock as they were and appends exactly one
entry to the error log; the error of the `try` block ends in the `catch` block. -/
theorem updateBalance_failure (P : Platform) (address reason : String) (s : BalancePage) :
    updateBalanceTry P address (.rejected reason) s = .error reason ∧
    updateBalanceTry P address (.invalidJson reason) s = .error reason ∧
    updateBalance P address (.rejected reason) s =
      { s with log := s.log ++ [{ message := "Error fetching balance:", error := reason }] } ∧
    updateBalance P address (.invalidJson reason) s =
      { s with log := s.log ++ [{ message := "Error fetching balance:", error := reason }] } ∧
    (∀ r, r = FetchOutcome.rejected reason ∨ r = FetchOutcome.invalidJson reason →
      (updateBalance P address r s).elements = s.elements ∧
      (updateBalance P address r s).timeouts = s.timeouts ∧
      (updateBalance P address r s).now = s.now ∧
      (updateBalance P address r s).log.length = s.log.length + 1) := by
  refine ⟨rfl, rfl, rfl, rfl, ?_⟩
  rintro r (rfl | rfl) <;> simp [updateBalance, updateBalanceTry]

/-- Witness for C5: a rejected request on the fresh page. -/
theorem updateBalance_failure_witness :
    (updateBalance samplePlatform "abc" (.rejected "NetworkError") freshBalancePage).elements
      = freshBalancePage.elements ∧
    (updateBalance samplePlatform "abc" (.rejected "NetworkError") freshBalancePage).log.length
      = 1 :=
  ⟨((updateBalance_failure samplePlatform "abc" "NetworkError" freshBalancePage).2.2.2.2
      _ (Or.inl rfl)).1,
   ((updateBalance_failure samplePlatform "abc" "NetworkError" freshBalancePage).2.2.2.2
      _ (Or.inl rfl)).2.2.2⟩

/-- C6, as stated, fails in three ways.  A second update made 500 ms after a first one
puts the marker on the element, and the marker is gone 500 ms later, at time 1000, when
the timeout of the first update runs.  For the body `{ balance: { toString: null } }`
`parseFloat` throws: the text and the classes stay as they were, no timeout is scheduled
and one error is logged.  For the body `null`, which has no balance field, with the
element present one error is logged. -/
theorem updateBalance_success_refuted :
    ((updateBalance samplePlatform "abc" (balanceResponse (.finite 2 0))
      (advanceTo 500 (updateBalance samplePlatform "abc" (balanceResponse (.finite 1 0))
        freshBalancePage))).now = 500 ∧
     hasMarker (updateBalance samplePlatform "abc" (balanceResponse (.finite 2 0))
      (advanceTo 500 (updateBalance samplePlatform "abc" (balanceResponse (.finite 1 0))
        freshBalancePage))) "abc" = some true ∧
     hasMarker (advanceTo 1000 (updateBalance samplePlatform "abc"
      (balanceResponse (.finite 2 0))
      (advanceTo 500 (updateBalance samplePlatform "abc" (balanceResponse (.finite 1 0))
        freshBalancePage)))) "abc" = some false) ∧
    (balanceText (updateBalance samplePlatform "abc" objectResponse freshBalancePage) "abc"
      = some "0.00" ∧
     hasMarker (updateBalance samplePlatform "abc" objectResponse freshBalancePage) "abc"
      = some false ∧
     (updateBalance samplePlatform "abc" objectResponse freshBalancePage).timeouts = [] ∧
     (updateBalance samplePlatform "abc" objectResponse freshBalancePage).log.length = 1) ∧
    (updateBalance samplePlatform "abc" (.json .null) freshBalancePage).log.length = 1 := by
  decide

/-- C6, amended: on a parsed response with a balance field that `parseFloat` reads
without throwing, when the element `balance-` + address exists, `updateBalance` sets
its text to `parseFloat(balance).toFixed(2)`, puts the success marker on it, logs
nothing and schedules one timeout 1000 ms ahead; the marker is absent from 1000 ms
after the update on, and it is present until then when no earlier timeout for the
element was pending.  When `parseFloat` throws, which it does only with the error of
converting the balance to a string, the page is left as it was but for one log entry;
the same holds for the body `null` with the element present.  When the element does
not exist, or the body is not `null` and its balance field is undefined, the page is
left as it was. -/
theorem updateBalance_success (P : Platform) (address : String) (balance : JSValue)
    (s : BalancePage) :
    (∀ el x, getElementById s ("balance-" ++ address) = some el →
      parseFloat P balance = .ok x →
      getElementById (updateBalance P address (.json (.value (some balance))) s)
        ("balance-" ++ address) =
        some { textContent := toFixed P x 2
               classList := classListAdd el.classList successMarker } ∧
      hasMarker (updateBalance P address (.json (.value (some balance))) s) address
        = some true ∧
      (updateBalance P address (.json (.value (some balance))) s).timeouts
        = s.timeouts ++ [{ due := s.now + 1000, target := "balance-" ++ address }] ∧
      (updateBalance P address (.json (.value (some balance))) s).log = s.log ∧
      (∀ t, s.now + 1000 ≤ t →
        hasMarker (advanceTo t (updateBalance P address (.json (.value (some balance))) s))
          address = some false) ∧
      (∀ t, t < s.now + 1000 → (∀ y ∈ s.timeouts, y.target ≠ "balance-" ++ address) →
        hasMarker (advanceTo t (updateBalance P address (.json (.value (some balance))) s))
          address = some true)) ∧
    (∀ el e, getElementById s ("balance-" ++ address) = some el →
      parseFloat P balance = .error e →
      toStringValue P balance = .error e ∧
      updateBalance P address (.json (.value (some balance))) s =
        { s with log := s.log ++ [{ message := "Error fetching balance:", error := e }] }) ∧
    (∀ el, getElementById s ("balance-" ++ address) = some el →
      updateBalance P address (.json .null) s =
        { s with log := s.log ++
          [{ message := "Error fetching balance:", error := "TypeError: data is null" }] }) ∧
    (getElementById s ("balance-" ++ address) = none →
      ∀ data, updateBalance P address (.json data) s = s) ∧
    updateBalance P address (.json (.value none)) s = s := by
  refine ⟨?_, ?_, ?_, ?_, ?_⟩
  · intro el x hel hx
    have hget := getElementById_updateBalance P address balance x s el hel hx
    have hfr := updateBalance_frame P address balance x s el hel hx
    refine ⟨hget, ?_, hfr.2.2, hfr.2.1, ?_, ?_⟩
    · simp [hasMarker, hget, mem_classListAdd]
    · intro t ht
      exact (updateBalance_then_advanceTo P address balance x s el hel hx t).2.1 ht
    · intro t ht hnone
      exact (updateBalance_then_advanceTo P address balance x s el hel hx t).2.2 ht hnone
  · intro el e hel he
    exact ⟨parseFloat_error P balance e he, updateBalance_thrown P address balance e s el hel he⟩
  · intro el hel
    simp [updateBalance, updateBalanceTry, hel]
  · intro hnone data
    simp [updateBalance, updateBalanceTry, hnone]
  · cases h : getElementById s ("balance-" ++ address) <;>
      simp [updateBalance, updateBalanceTry, h]

/-- Witness for C6: the fresh page; the marker is on the element 999 ms after the
update and gone after 1000 ms. -/
theorem updateBalance_success_witness :
    hasMarker (advanceTo 999 (updateBalance samplePlatform "abc"
      (.json (.value (some (.number (.finite 5 0))))) freshBalancePage)) "abc" = some true ∧
    hasMarker (advanceTo 1000 (updateBalance samplePlatform "abc"
      (.json (.value (some (.number (.finite 5 0))))) freshBalancePage)) "abc" = some false :=
  ⟨((updateBalance_success samplePlatform "abc" (.number (.finite 5 0)) freshBalancePage).1
      _ _ rfl rfl).2.2.2.2.2 999 (by decide) (by decide),
   ((updateBalance_success samplePlatform "abc" (.number (.finite 5 0)) freshBalancePage).1
      _ _ rfl rfl).2.2.2.2.1 1000 (by decide)⟩

/-- C7, as stated, fails: when the second response, processed 500 ms after the first,
is `{ balance: { toString: null } }`, `parseFloat` throws, one error is logged and the
text shown afterwards is still the balance of the first response. -/
theorem second_response_not_shown :
    balanceText (advanceTo 1500 (updateBalance samplePlatform "abc" objectResponse
      (advanceTo 500 (updateBalance samplePlatform "abc" (balanceResponse (.finite 1 0))
        freshBalancePage)))) "abc" = some "1.00" ∧
    (advanceTo 1500 (updateBalance samplePlatform "abc" objectResponse
      (advanceTo 500 (updateBalance samplePlatform "abc" (balanceResponse (.finite 1 0))
        freshBalancePage)))).log.length = 1 := by
  decide

/-- C7, amended: when two responses with a balance field for the same address are
processed at the times `s.now` and `t2` with `s.now < t2 < s.now + 1000`, the element
exists and `parseFloat` reads the balance of the second response without throwing, then
the second update puts the success marker on the element, the text shown afterwards is
the formatted balance of the second response, and the marker is absent at every time
from `t2 + 1000` on. -/
theorem updateBalance_overlap (P : Platform) (address : String) (b1 b2 : JSValue)
    (x2 : JSNumber) (s : BalancePage) (el : BalanceElement) (t2 : Nat)
    (hel : getElementById s ("balance-" ++ address) = some el)
    (hx2 : parseFloat P b2 = .ok x2)
    (h1 : s.now < t2) (h2 : t2 < s.now + 1000) :
    (updateBalance P address (.json (.value (some b2)))
      (advanceTo t2 (updateBalance P address (.json (.value (some b1))) s))).now = t2 ∧
    hasMarker (updateBalance P address (.json (.value (some b2)))
      (advanceTo t2 (updateBalance P address (.json (.value (some b1))) s))) address
      = some true ∧
    (∀ t, balanceText (advanceTo t (updateBalance P address (.json (.value (some b2)))
      (advanceTo t2 (updateBalance P address (.json (.value (some b1))) s)))) address
      = some (toFixed P x2 2)) ∧
    (∀ t, t2 + 1000 ≤ t →
      hasMarker (advanceTo t (updateBalance P address (.json (.value (some b2)))
        (advanceTo t2 (updateBalance P address (.json (.value (some b1))) s)))) address
        = some false) := by
  obtain ⟨hnow1, el1, hel1⟩ := updateBalance_keeps_element P address b1 s el hel
  obtain ⟨el2, hel2⟩ : ∃ el2, getElementById
      (advanceTo t2 (updateBalance P address (.json (.value (some b1))) s))
      ("balance-" ++ address) = some el2 := by
    rw [getElementById_advanceTo, hel1]
    exact ⟨_, rfl⟩
  have hnow : (advanceTo t2 (updateBalance P address (.json (.value (some b1))) s)).now
      = t2 := by
    show max _ t2 = t2
    rw [hnow1]
    omega
  refine ⟨?_, ?_, ?_, ?_⟩
  · rw [(updateBalance_frame P address b2 x2 _ el2 hel2 hx2).1, hnow]
  · simp [hasMarker, getElementById_updateBalance P address b2 x2 _ el2 hel2 hx2,
      mem_classListAdd]
  · intro t
    exact (updateBalance_then_advanceTo P address b2 x2 _ el2 hel2 hx2 t).1
  · intro t ht
    exact (updateBalance_then_advanceTo P address b2 x2 _ el2 hel2 hx2 t).2.1
      (by rw [hnow]; exact ht)

/-- Witness for C7: the fresh page at time 0, the second response processed at
time 500; at time 1500 the text is the second balance and the marker is gone. -/
theorem updateBalance_overlap_witness :
    balanceText (advanceTo 1500 (updateBalance samplePlatform "abc"
      (.json (.value (some (.number (.finite 2 0)))))
      (advanceTo 500 (updateBalance samplePlatform "abc"
        (.json (.value (some (.number (.finite 1 0))))) freshBalancePage)))) "abc"
      = some "2.00" ∧
    hasMarker (advanceTo 1500 (updateBalance samplePlatform "abc"
      (.json (.value (some (.number (.finite 2 0)))))
      (advanceTo 500 (updateBalance samplePlatform "abc"
        (.json (.value (some (.number (.finite 1 0))))) freshBalancePage)))) "abc"
      = some false :=
  ⟨((updateBalance_overlap samplePlatform "abc" (.number (.finite 1 0)) (.number (.finite 2 0))
      _ freshBalancePage _ 500 rfl rfl (by decide) (by decide)).2.2.1 1500).trans (by decide),
   (updateBalance_overlap samplePlatform "abc" (.number (.finite 1 0)) (.number (.finite 2 0))
      _ freshBalancePage _ 500 rfl rfl (by decide) (by decide)).2.2.2 1500 (by decide)⟩

end Blockchain
